import Mathlib

/-!
Verification of the intent controller (`ryu/app/intent.py`).

The development shallowly embeds the module's core logic:

* `dijkstra` — the module-level `dijkstra(vertices, edges, source)` function
  (single-source shortest paths with uniform edge weight 1).
* `compileRule` — `Intent._compile_rule` together with
  `Intent._compute_spanning_tree`.
* `addRule`, `removeRule`, `updateRule`, `removeReversePath` — the intent
  registry operations `Intent.add_rule`, `Intent.remove_rule`,
  `Intent.update_rule`, `Intent._remove_reverse_path`.
* `packetIn` — the learning-switch handler `Intent._packet_in_handler`
  (together with `Intent._add_flow`).

Python `dict` values are modelled either as total functions (the per-run
`dist` / `prev` maps of `dijkstra`, defaulting to `⊤` / `none` off their key
set) or as insertion-ordered association lists (`dictLookup` / `dictInsert` /
`dictErase`), matching CPython's insertion-ordered dictionaries.  Switch ids,
ports and uuids are natural numbers; `float('inf')` distances are `ℕ∞`.
Messages submitted through `datapath.send_msg` are accumulated in a trace
list, modelling the switch gateway.
-/

/-- A directed link as consumed by `dijkstra`: the Python dict
`{'src': ..., 'dst': ..., 'port': ...}` built in `_compute_spanning_tree`
(`port` is the destination-side port `link.dst.port_no`). -/
structure Edge where
  src : ℕ
  dst : ℕ
  port : ℕ
deriving DecidableEq

/-- The transient state of a `dijkstra` run: the `dist` and `prev` maps.
`dist` has value `⊤` for `float('inf')`; `prev v = some (u, q)` models
`prev[v] = [u, port]`, `none` models `prev[v] = None` (and absent keys). -/
abbrev DijState := (ℕ → ℕ∞) × (ℕ → Option (ℕ × ℕ))

/-- One relaxation of the edge `e` out of the currently selected vertex `u`:
`alt = dist[u] + 1; if alt < dist[e.dst]: dist[e.dst] = alt;
prev[e.dst] = [u, e.port]` (lines 60-64 of the source). -/
def relaxStep (u : ℕ) (dp : DijState) (e : Edge) : DijState :=
  if dp.1 u + 1 < dp.1 e.dst then
    (fun x => if x = e.dst then dp.1 u + 1 else dp.1 x,
     fun x => if x = e.dst then some (u, e.port) else dp.2 x)
  else dp

/-- Relax every outgoing edge of `u`:
`neighbors = [x for x in edges if x['src'] == u]` followed by the `for v in
neighbors` loop (lines 56-64). -/
def relax (E : List Edge) (u : ℕ) (dp : DijState) : DijState :=
  (E.filter (fun e => e.src = u)).foldl (relaxStep u) dp

/-- `min(available, key=available.get)` (line 53): the first element of the
list attaining the minimum distance.  CPython's `min` over the insertion
ordered dict `available` returns the first key of minimum value; with
distinct vertices the iteration order of `available` coincides with the
order of the `unvisited` list, which is kept as a subsequence of `vertices`. -/
def selectMin (d : ℕ → ℕ∞) : List ℕ → ℕ
  | [] => 0
  | [x] => x
  | x :: y :: t =>
      let m := selectMin d (y :: t)
      if d x ≤ d m then x else m

/-- The `while unvisited:` loop (lines 50-64), driven by a fuel argument.
Each pass removes the selected vertex from `unvisited`
(`unvisited.remove(u)` erases its first occurrence), so the loop performs
exactly `unvisited.length` iterations; `loop` below supplies that fuel. -/
def loopN (E : List Edge) : ℕ → List ℕ → DijState → DijState
  | _, [], dp => dp
  | 0, _ :: _, dp => dp
  | n + 1, u0 :: rest, dp =>
      let u := selectMin dp.1 (u0 :: rest)
      loopN E n ((u0 :: rest).erase u) (relax E u dp)

/-- The `while unvisited:` loop started with the full vertex list. -/
def loop (E : List Edge) (unvisited : List ℕ) (dp : DijState) : DijState :=
  loopN E unvisited.length unvisited dp

/-- The module-level `dijkstra(vertices, edges, source)` (lines 33-66).
`none` models the `ValueError("source %u not in the vertices")` raised when
the source is absent (line 36-37).  The initial maps give every vertex
distance `⊤` and predecessor `None`, then set `dist[source] = 0`;
off-key-set arguments also yield `⊤` / `none` (the Python dicts have no such
keys, and the code never reads them when every edge destination is a
vertex). -/
def dijkstra (V : List ℕ) (E : List Edge) (s : ℕ) : Option DijState :=
  if s ∈ V then
    some (loop E V (fun v => if v = s then (0 : ℕ∞) else ⊤, fun _ => none))
  else none

/-- `PathLen E s v n` holds when there is a directed walk of exactly `n`
links from `s` to `v` using the edge list `E`. -/
inductive PathLen (E : List Edge) (s : ℕ) : ℕ → ℕ → Prop
  | refl : PathLen E s s 0
  | step {u n} (e : Edge) (hp : PathLen E s u n) (he : e ∈ E)
      (hs : e.src = u) : PathLen E s e.dst (n + 1)

/-- The loop invariant of the `dijkstra` run.  `unv` is the current
`unvisited` list, `d`/`p` the current `dist`/`prev` maps, relative to the
vertex list `V`, edge list `E` and source `s`. -/
structure DijInv (V : List ℕ) (E : List Edge) (s : ℕ) (unv : List ℕ)
    (d : ℕ → ℕ∞) (p : ℕ → Option (ℕ × ℕ)) : Prop where
  sub : ∀ x ∈ unv, x ∈ V
  nd : unv.Nodup
  zero : d s = 0
  front : ∀ v ∈ V, v ∉ unv → ∀ w ∈ unv, d v ≤ d w
  outV : ∀ v, v ∉ V → d v = ⊤
  sound : ∀ (v : ℕ) (n : ℕ), d v = (n : ℕ∞) → PathLen E s v n
  edge : ∀ e ∈ E, e.src ∈ V → e.src ∉ unv → d e.dst ≤ d e.src + 1
  prevOk : ∀ v u q, p v = some (u, q) → d v = d u + 1 ∧ u ∈ V ∧ u ∉ unv ∧
      ∃ e ∈ E, e.src = u ∧ e.dst = v ∧ e.port = q

/-- `OFP_LW_PRIORITY` (line 29): priority of learning-switch rules. -/
def OFP_LW_PRIORITY : ℕ := 100

/-- `OFP_RULE_PRIORITY` (line 30): priority used by the intent delete path. -/
def OFP_RULE_PRIORITY : ℕ := 200

/-- `ether_types.ETH_TYPE_LLDP` (0x88cc). -/
def ETH_TYPE_LLDP : ℕ := 35020

/-- `ether_types.ETH_TYPE_IPV6` (0x86dd). -/
def ETH_TYPE_IPV6 : ℕ := 34525

/-- `ofproto_v1_0.OFPP_FLOOD` (0xfffb). -/
def OFPP_FLOOD : ℕ := 65531

/-- `ofproto_v1_0.OFP_NO_BUFFER` (0xffffffff). -/
def OFP_NO_BUFFER : ℕ := 4294967295

/-- An OpenFlow match.  `in_port` and `dl_dst` are the two fields the module
manipulates explicitly (`rule.match['in_port']`, `dl_dst=dst`); `fields` is
an opaque encoding of whatever other header-field constraints the intent's
match dictionary carries (`0` when there are none, as in `_add_flow`). -/
structure Match where
  in_port : Option ℕ
  dl_dst : Option (List ℕ)
  fields : ℕ
deriving DecidableEq

/-- OpenFlow flow-mod commands used by the module: `OFPFC_ADD`,
`OFPFC_DELETE_STRICT` and `OFPFC_DELETE`. -/
inductive Cmd
  | add
  | deleteStrict
  | delete
deriving DecidableEq

/-- An `OFPFlowMod` as built by the module: target datapath id, match,
command, priority and output actions (the list of output port numbers;
empty for deletes, which pass no actions). -/
structure FlowMod where
  dpid : ℕ
  matchFields : Match
  cmd : Cmd
  priority : ℕ
  actions : List ℕ
deriving DecidableEq

/-- A message submitted through `datapath.send_msg`: either a flow-mod or an
`OFPPacketOut` (datapath id, buffer id, in_port, output actions, and whether
raw frame data was attached, i.e. `buffer_id == OFP_NO_BUFFER`). -/
inductive Msg
  | flow (fm : FlowMod)
  | packetOut (dpid buffer_id in_port : ℕ) (actions : List ℕ)
      (dataAttached : Bool)
deriving DecidableEq

/-- An intent (the `rule` objects handled by `add_rule` / `remove_rule`):
uuid, target switch `ttp_dpid`, target port `ttp_port`, the match
dictionary, and the mutable `flow_mods` list `_compile_rule` appends to. -/
structure Rule where
  uuid : ℕ
  ttp_dpid : ℕ
  ttp_port : ℕ
  matchFields : Match
  flow_mods : List FlowMod
deriving DecidableEq

/-- A switch of the topology snapshot: datapath id and its port numbers
(`datapath.ports` iterates port numbers). -/
structure Switch where
  dpid : ℕ
  ports : List ℕ
deriving DecidableEq

/-- A topology snapshot, as returned by `get_switch(self, None)` and
`get_link(self, None)`; links are already in the `{'src','dst','port'}`
form built by `_compute_spanning_tree` (lines 91-95). -/
structure Snapshot where
  switches : List Switch
  links : List Edge
deriving DecidableEq

/-- `get_switch(self, dpid)[0].dp`: look the switch up by datapath id.  The
Python call raises when the switch is absent; the default is never reached
by `_compile_rule`, which only looks up ids drawn from the snapshot. -/
def findSwitch (snap : Snapshot) (dpid : ℕ) : Switch :=
  (snap.switches.find? (fun sw => sw.dpid == dpid)).getD ⟨dpid, []⟩

/-- Python-dict lookup on an insertion-ordered association list. -/
def dictLookup {κ α : Type} [DecidableEq κ] : List (κ × α) → κ → Option α
  | [], _ => none
  | kv :: rest, k => if kv.1 = k then some kv.2 else dictLookup rest k

/-- Python-dict assignment `d[k] = v`: replace in place when the key exists,
otherwise append (CPython dicts keep insertion order). -/
def dictInsert {κ α : Type} [DecidableEq κ] : List (κ × α) → κ → α → List (κ × α)
  | [], k, v => [(k, v)]
  | kv :: rest, k, v =>
      if kv.1 = k then (k, v) :: rest else kv :: dictInsert rest k v

/-- Python-dict deletion `del d[k]` (keys are unique, so removing the first
occurrence matches). -/
def dictErase {κ α : Type} [DecidableEq κ] : List (κ × α) → κ → List (κ × α)
  | [], _ => []
  | kv :: rest, k => if kv.1 = k then rest else kv :: dictErase rest k

/-- The inner `for in_port in datapath.ports` loop of `_compile_rule`
(lines 119-136): skip the output port and port 65534, otherwise temporarily
set `rule.match['in_port']`, build the match and the `OFPFC_ADD` flow-mod
with priority 200 and a single output action, delete the `'in_port'` key
again, and append the flow-mod to `rule.flow_mods`. -/
def portStep (dpid outPort : ℕ) (r : Rule) (in_port : ℕ) : Rule :=
  if in_port = outPort then r
  else if in_port = 65534 then r
  else
    { r with
        matchFields := { r.matchFields with in_port := none },
        flow_mods := r.flow_mods ++
          [{ dpid := dpid,
             matchFields := { r.matchFields with in_port := some in_port },
             cmd := Cmd.add, priority := 200, actions := [outPort] }] }

/-- The body of the `for pred in preds` loop of `_compile_rule`
(lines 106-136): when `preds[pred]` is `None` (falsy) use the target switch
and the intent's target port, otherwise use the switch `pred` and the port
recorded in the predecessor entry; then run the ports loop. -/
def predStep (snap : Snapshot) (target : ℕ) (prev : ℕ → Option (ℕ × ℕ))
    (r : Rule) (pred : ℕ) : Rule :=
  match prev pred with
  | none =>
      let dp := findSwitch snap target
      dp.ports.foldl (portStep dp.dpid r.ttp_port) r
  | some uq =>
      let dp := findSwitch snap pred
      dp.ports.foldl (portStep dp.dpid uq.2) r

/-- Registry errors: `Err.invalidTarget` models the `ValueError` raised by
`dijkstra` when the target switch is absent from the snapshot;
`Err.notFound` models the `KeyError` raised by `self.rules[uuid]` for an
unknown uuid. -/
inductive Err
  | invalidTarget
  | notFound
deriving DecidableEq

/-- `Intent._compile_rule` (lines 101-136) together with
`_compute_spanning_tree` (lines 83-99): run `dijkstra` on the snapshot
rooted at the intent's target and iterate the predecessor map's keys (the
vertex list, in insertion order).  Returns the updated rule object and the
propagated error, if any; no message is sent here. -/
def compileRule (snap : Snapshot) (r : Rule) : Rule × Option Err :=
  let sws := snap.switches.map Switch.dpid
  match dijkstra sws snap.links r.ttp_dpid with
  | none => (r, some Err.invalidTarget)
  | some dp => (sws.foldl (predStep snap r.ttp_dpid dp.2) r, none)

/-- The delete flow-mod built by `_remove_reverse_path` (lines 178-181) for
an installed flow-mod: same datapath and match, command
`OFPFC_DELETE_STRICT`, priority `OFP_RULE_PRIORITY`, no actions. -/
def toDeleteStrict (fm : FlowMod) : FlowMod :=
  { dpid := fm.dpid, matchFields := fm.matchFields, cmd := Cmd.deleteStrict,
    priority := OFP_RULE_PRIORITY, actions := [] }

/-- The controller state: the intent registry `self.rules`, the learning
table `self.mac_to_port` (switch id → MAC → port, MACs as octet lists), and
the trace of messages submitted to switches via `send_msg`. -/
structure AppState where
  rules : List (ℕ × Rule)
  mac_to_port : List (ℕ × List (List ℕ × ℕ))
  msgs : List Msg
deriving DecidableEq

/-- `Intent.add_rule` (lines 144-153): compile, send every flow-mod of the
rule's `flow_mods` list, store the rule under its uuid.  When compilation
raises (absent target) the exception propagates before any message is sent
or the registry is touched. -/
def addRule (snap : Snapshot) (r : Rule) (s : AppState) : AppState × Option Err :=
  match compileRule snap r with
  | (_, some e) => (s, some e)
  | (r', none) =>
      ({ s with
          msgs := s.msgs ++ r'.flow_mods.map Msg.flow,
          rules := dictInsert s.rules r'.uuid r' }, none)

/-- `Intent._remove_reverse_path` (lines 167-183): look the rule up (a
missing uuid raises `KeyError` before anything is sent) and submit one
strict-delete per recorded flow-mod. -/
def removeReversePath (s : AppState) (uuid : ℕ) : AppState × Option Err :=
  match dictLookup s.rules uuid with
  | none => (s, some Err.notFound)
  | some r =>
      ({ s with
          msgs := s.msgs ++ r.flow_mods.map (fun fm => Msg.flow (toDeleteStrict fm)) },
       none)

/-- One uuid's removal: `self._remove_reverse_path(uuid)` followed by
`del self.rules[uuid]` (lines 159-160 and 164-165). -/
def removeOne (s : AppState) (uuid : ℕ) : AppState × Option Err :=
  match removeReversePath s uuid with
  | (s', some e) => (s', some e)
  | (s', none) => ({ s' with rules := dictErase s'.rules uuid }, none)

/-- `Intent.remove_rule` (lines 155-165): with a uuid, remove that entry;
with `None`, iterate `list(self.rules)` and remove every entry (each key is
present, so the per-key error is never raised on that path). -/
def removeRule (uuid : Option ℕ) (s : AppState) : AppState × Option Err :=
  match uuid with
  | some u => removeOne s u
  | none => ((s.rules.map Prod.fst).foldl (fun st u => (removeOne st u).1) s, none)

/-- `Intent.update_rule` (lines 138-142): `remove_rule(uuid)` then
`add_rule(rule)`; an exception in the removal aborts the update. -/
def updateRule (snap : Snapshot) (uuid : ℕ) (r : Rule) (s : AppState) :
    AppState × Option Err :=
  match removeRule (some uuid) s with
  | (s', some e) => (s', some e)
  | (s', none) => addRule snap r s'

/-- A decoded packet-in event: switch id, ingress port, buffer id, and the
Ethernet header fields (source/destination MAC as octet lists, ethertype). -/
structure PacketInEv where
  dpid : ℕ
  in_port : ℕ
  buffer_id : ℕ
  src : List ℕ
  dst : List ℕ
  ethertype : ℕ
deriving DecidableEq

/-- `Intent._packet_in_handler` (lines 201-258) with `_add_flow`
(lines 185-199): drop LLDP and IPv6 frames and frames whose destination MAC
has the multicast bit set (first octet odd) before anything else; then learn
`mac_to_port[dpid][src] = in_port`, resolve the output port (flood when the
destination is unknown), install a priority-100 rule matching
(in_port, dl_dst) when the output is not flood, and always emit a
packet-out. -/
def packetIn (s : AppState) (ev : PacketInEv) : AppState :=
  if ev.ethertype = ETH_TYPE_LLDP then s
  else if ev.ethertype = ETH_TYPE_IPV6 then s
  else if ev.dst.headD 0 % 2 = 1 then s
  else
    let table := (dictLookup s.mac_to_port ev.dpid).getD []
    let table' := dictInsert table ev.src ev.in_port
    let out_port := (dictLookup table' ev.dst).getD OFPP_FLOOD
    let actions := [out_port]
    let installs : List Msg :=
      if out_port ≠ OFPP_FLOOD then
        [Msg.flow
          { dpid := ev.dpid,
            matchFields :=
              { in_port := some ev.in_port, dl_dst := some ev.dst, fields := 0 },
            cmd := Cmd.add, priority := OFP_LW_PRIORITY, actions := actions }]
      else []
    let pout := Msg.packetOut ev.dpid ev.buffer_id ev.in_port actions
      (ev.buffer_id = OFP_NO_BUFFER)
    { s with
        mac_to_port := dictInsert s.mac_to_port ev.dpid table',
        msgs := s.msgs ++ installs ++ [pout] }

/-! ### Properties of the shortest-path computation -/

theorem selectMin_mem (d : ℕ → ℕ∞) :
    ∀ (l : List ℕ), l ≠ [] → selectMin d l ∈ l := by
  intro l
  induction l with
  | nil => intro h; exact absurd rfl h
  | cons x t ih =>
      intro _
      cases t with
      | nil => simp [selectMin]
      | cons y t' =>
          simp only [selectMin]
          by_cases h : d x ≤ d (selectMin d (y :: t'))
          · simp [h]
          · simp only [if_neg h]
            exact List.mem_cons_of_mem _ (ih (List.cons_ne_nil _ _))

theorem selectMin_min (d : ℕ → ℕ∞) :
    ∀ (l : List ℕ) (w : ℕ), w ∈ l → d (selectMin d l) ≤ d w := by
  intro l
  induction l with
  | nil => intro w hw; simp at hw
  | cons x t ih =>
      intro w hw
      cases t with
      | nil =>
          rw [List.mem_singleton] at hw
          subst hw
          simp [selectMin]
      | cons y t' =>
          simp only [selectMin]
          by_cases h : d x ≤ d (selectMin d (y :: t'))
          · simp only [if_pos h]
            rcases List.mem_cons.mp hw with rfl | hw'
            · exact le_refl _
            · exact le_trans h (ih w hw')
          · simp only [if_neg h]
            rcases List.mem_cons.mp hw with rfl | hw'
            · exact (not_le.mp h).le
            · exact ih w hw'

theorem relaxStep_char (u : ℕ) (dp : DijState) (e : Edge) (v : ℕ) :
    ((relaxStep u dp e).1 v = dp.1 v ∧ (relaxStep u dp e).2 v = dp.2 v) ∨
      (e.dst = v ∧ (relaxStep u dp e).1 v = dp.1 u + 1 ∧
        dp.1 u + 1 < dp.1 v ∧ (relaxStep u dp e).2 v = some (u, e.port)) := by
  unfold relaxStep
  by_cases hg : dp.1 u + 1 < dp.1 e.dst
  · by_cases hv : v = e.dst
    · subst hv
      right
      exact ⟨rfl, by simp [hg], by simp [hg], by simp [hg]⟩
    · left
      constructor
      · simp [hg, hv]
      · simp [hg, hv]
  · left
    simp [hg]

theorem relaxStep_dst_le (u : ℕ) (dp : DijState) (e : Edge) :
    (relaxStep u dp e).1 e.dst ≤ dp.1 u + 1 := by
  unfold relaxStep
  by_cases hg : dp.1 u + 1 < dp.1 e.dst
  · simp [hg]
  · simpa [hg] using not_lt.mp hg

theorem relaxStep_le (u : ℕ) (dp : DijState) (e : Edge) (v : ℕ) :
    (relaxStep u dp e).1 v ≤ dp.1 v := by
  rcases relaxStep_char u dp e v with ⟨h, _⟩ | ⟨_, h1, hlt, _⟩
  · exact le_of_eq h
  · rw [h1]; exact hlt.le

theorem relaxStep_fix (u : ℕ) (dp : DijState) (e : Edge) :
    (relaxStep u dp e).1 u = dp.1 u := by
  rcases relaxStep_char u dp e u with ⟨h, _⟩ | ⟨_, _, hlt, _⟩
  · exact h
  · exact absurd hlt (by simp [le_self_add])

theorem relax_fold_char (u : ℕ) :
    ∀ (L : List Edge) (d : ℕ → ℕ∞) (p : ℕ → Option (ℕ × ℕ)) (v : ℕ),
      ((L.foldl (relaxStep u) (d, p)).1 v = d v ∧
        (L.foldl (relaxStep u) (d, p)).2 v = p v) ∨
      (∃ e ∈ L, e.dst = v ∧ (L.foldl (relaxStep u) (d, p)).1 v = d u + 1 ∧
        d u + 1 < d v ∧ (L.foldl (relaxStep u) (d, p)).2 v = some (u, e.port)) := by
  intro L
  induction L with
  | nil =>
      intro d p v
      left
      exact ⟨rfl, rfl⟩
  | cons e L ih =>
      intro d p v
      have hfold : (e :: L).foldl (relaxStep u) (d, p)
          = L.foldl (relaxStep u)
              ((relaxStep u (d, p) e).1, (relaxStep u (d, p) e).2) := by
        simp [List.foldl_cons]
      have hu : (relaxStep u (d, p) e).1 u = d u := relaxStep_fix u (d, p) e
      have hlev : (relaxStep u (d, p) e).1 v ≤ d v := relaxStep_le u (d, p) e v
      rcases ih (relaxStep u (d, p) e).1 (relaxStep u (d, p) e).2 v with
        ⟨h1, h2⟩ | ⟨e', he', hdst, h1, hlt, h2⟩
      · rcases relaxStep_char u (d, p) e v with ⟨g1, g2⟩ | ⟨gdst, g1, glt, g2⟩
        · left
          rw [hfold]
          exact ⟨h1.trans g1, h2.trans g2⟩
        · right
          refine ⟨e, List.mem_cons_self e L, gdst, ?_, glt, ?_⟩
          · rw [hfold, h1, g1]
          · rw [hfold, h2, g2]
      · right
        refine ⟨e', List.mem_cons_of_mem e he', hdst, ?_, ?_, ?_⟩
        · rw [hfold, h1, hu]
        · rw [hu] at hlt
          exact lt_of_lt_of_le hlt hlev
        · rw [hfold, h2]

theorem relax_fold_le (u : ℕ) (L : List Edge) (d : ℕ → ℕ∞)
    (p : ℕ → Option (ℕ × ℕ)) (v : ℕ) :
    (L.foldl (relaxStep u) (d, p)).1 v ≤ d v := by
  rcases relax_fold_char u L d p v with ⟨h, _⟩ | ⟨_, _, _, h1, hlt, _⟩
  · exact le_of_eq h
  · rw [h1]; exact hlt.le

theorem relax_fold_fix (u : ℕ) (L : List Edge) (d : ℕ → ℕ∞)
    (p : ℕ → Option (ℕ × ℕ)) :
    (L.foldl (relaxStep u) (d, p)).1 u = d u := by
  rcases relax_fold_char u L d p u with ⟨h, _⟩ | ⟨_, _, _, _, hlt, _⟩
  · exact h
  · exact absurd hlt (by simp [le_self_add])

theorem relax_fold_relaxed (u : ℕ) :
    ∀ (L : List Edge) (d : ℕ → ℕ∞) (p : ℕ → Option (ℕ × ℕ)),
      ∀ e ∈ L, (L.foldl (relaxStep u) (d, p)).1 e.dst ≤ d u + 1 := by
  intro L
  induction L with
  | nil =>
      intro d p e he
      simp at he
  | cons e0 L ih =>
      intro d p e he
      have hfold : (e0 :: L).foldl (relaxStep u) (d, p)
          = L.foldl (relaxStep u)
              ((relaxStep u (d, p) e0).1, (relaxStep u (d, p) e0).2) := by
        simp [List.foldl_cons]
      have hu : (relaxStep u (d, p) e0).1 u = d u := relaxStep_fix u (d, p) e0
      rcases List.mem_cons.mp he with rfl | he'
      · rw [hfold]
        have h1 : (relaxStep u (d, p) e).1 e.dst ≤ d u + 1 :=
          relaxStep_dst_le u (d, p) e
        exact le_trans
          (relax_fold_le u L (relaxStep u (d, p) e).1 (relaxStep u (d, p) e).2 e.dst) h1
      · rw [hfold]
        have := ih (relaxStep u (d, p) e0).1 (relaxStep u (d, p) e0).2 e he'
        rwa [hu] at this

theorem dijinv_step (V : List ℕ) (E : List Edge) (s : ℕ)
    (hE : ∀ e ∈ E, e.dst ∈ V)
    (u0 : ℕ) (rest : List ℕ) (d : ℕ → ℕ∞) (p : ℕ → Option (ℕ × ℕ))
    (inv : DijInv V E s (u0 :: rest) d p) :
    DijInv V E s ((u0 :: rest).erase (selectMin d (u0 :: rest)))
      (relax E (selectMin d (u0 :: rest)) (d, p)).1
      (relax E (selectMin d (u0 :: rest)) (d, p)).2 := by
  set unv := u0 :: rest with hunvdef
  set u := selectMin d unv with hudef
  have hum : u ∈ unv := selectMin_mem d unv (by simp [hunvdef])
  have hmin : ∀ w ∈ unv, d u ≤ d w := fun w hw => selectMin_min d unv w hw
  set L := E.filter (fun e => e.src = u) with hLdef
  have hLmem : ∀ e : Edge, e ∈ L ↔ e ∈ E ∧ e.src = u := by
    intro e
    simp [hLdef, List.mem_filter]
  have hrelax : relax E u (d, p) = L.foldl (relaxStep u) (d, p) := rfl
  rw [hrelax]
  have char := relax_fold_char u L d p
  have hfix := relax_fold_fix u L d p
  have hle := relax_fold_le u L d p
  have hrel := relax_fold_relaxed u L d p
  have hstab : ∀ v, v ∈ V → v ∉ unv →
      (L.foldl (relaxStep u) (d, p)).1 v = d v ∧
      (L.foldl (relaxStep u) (d, p)).2 v = p v := by
    intro v hv hnv
    rcases char v with h | ⟨e, _, _, _, hlt, _⟩
    · exact h
    · exfalso
      have hvu : d v ≤ d u := inv.front v hv hnv u hum
      exact absurd (lt_of_lt_of_le hlt (hvu.trans le_self_add)) (lt_irrefl _)
  have hsub' : ∀ x ∈ unv.erase u, x ∈ unv := fun x hx => List.mem_of_mem_erase hx
  have hu_not : u ∉ unv.erase u := by
    intro h
    exact absurd (inv.nd.mem_erase_iff.mp h).1 (by simp)
  have helim : ∀ v, v ∈ unv → v ∉ unv.erase u → v = u := by
    intro v hv hv'
    by_contra hne
    exact hv' ((List.mem_erase_of_ne hne).mpr hv)
  refine
    { sub := fun x hx => inv.sub x (hsub' x hx)
      nd := inv.nd.erase u
      zero := ?_
      front := ?_
      outV := ?_
      sound := ?_
      edge := ?_
      prevOk := ?_ }
  · -- zero
    rcases char s with ⟨h1, _⟩ | ⟨_, _, _, _, hlt, _⟩
    · rw [h1]
      exact inv.zero
    · rw [inv.zero] at hlt
      exact absurd hlt ((zero_le _).not_lt)
  · -- front
    intro v hv hv' w hw
    have hwunv : w ∈ unv := hsub' w hw
    have hresw : d u ≤ (L.foldl (relaxStep u) (d, p)).1 w := by
      rcases char w with ⟨h1, _⟩ | ⟨_, _, _, h1, _, _⟩
      · rw [h1]
        exact hmin w hwunv
      · rw [h1]
        exact le_self_add
    by_cases hvunv : v ∈ unv
    · have hveq : v = u := helim v hvunv hv'
      subst hveq
      rw [hfix]
      exact hresw
    · rw [(hstab v hv hvunv).1]
      exact le_trans (inv.front v hv hvunv u hum) hresw
  · -- outV
    intro v hv
    rcases char v with ⟨h1, _⟩ | ⟨e, heL, hdst, _, _, _⟩
    · rw [h1]
      exact inv.outV v hv
    · exact absurd (hdst ▸ hE e ((hLmem e).mp heL).1) hv
  · -- sound
    intro v n hn
    rcases char v with ⟨h1, _⟩ | ⟨e, heL, hdst, h1, hlt, _⟩
    · exact inv.sound v n (h1 ▸ hn)
    · have hdu1 : d u + 1 = (n : ℕ∞) := h1 ▸ hn
      have hne : d u ≠ ⊤ := by
        intro htop
        rw [htop, top_add] at hdu1
        exact (ENat.top_ne_coe n) hdu1
      obtain ⟨k, hk⟩ := WithTop.ne_top_iff_exists.mp hne
      simp only [ENat.some_eq_coe] at hk
      rw [← hk] at hdu1
      have hnk : k + 1 = n := by exact_mod_cast hdu1
      have hpu : PathLen E s u k := inv.sound u k hk.symm
      have := PathLen.step e hpu ((hLmem e).mp heL).1 ((hLmem e).mp heL).2
      rw [hdst, hnk] at this
      exact this
  · -- edge
    intro e he hsV hs'
    by_cases hsu : e.src = u
    · have heL : e ∈ L := (hLmem e).mpr ⟨he, hsu⟩
      have := hrel e heL
      rw [← hfix] at this
      rw [hsu]
      exact this
    · have hsrc_unv : e.src ∉ unv := by
        intro h
        exact hsu (helim e.src h hs')
      have h1 := (hstab e.src hsV hsrc_unv).1
      rw [h1]
      exact le_trans (hle e.dst) (inv.edge e he hsV hsrc_unv)
  · -- prevOk
    intro v u' q hpq
    rcases char v with ⟨h1, h2⟩ | ⟨e, heL, hdst, h1, hlt, h2⟩
    · rw [h2] at hpq
      obtain ⟨hdv, hu'V, hu'unv, e, heE, hesrc, hedst, heport⟩ :=
        inv.prevOk v u' q hpq
      have hu'unv' : u' ∉ unv.erase u := fun h => hu'unv (hsub' u' h)
      refine ⟨?_, hu'V, hu'unv', e, heE, hesrc, hedst, heport⟩
      rw [h1, (hstab u' hu'V hu'unv).1]
      exact hdv
    · rw [h2] at hpq
      obtain ⟨rfl, rfl⟩ : u = u' ∧ e.port = q := by
        simpa using hpq
      refine ⟨?_, inv.sub u hum, hu_not, e, ((hLmem e).mp heL).1,
        ((hLmem e).mp heL).2, hdst, rfl⟩
      rw [h1, hfix]

theorem loopN_inv (V : List ℕ) (E : List Edge) (s : ℕ)
    (hE : ∀ e ∈ E, e.dst ∈ V) :
    ∀ (n : ℕ) (unv : List ℕ) (d : ℕ → ℕ∞) (p : ℕ → Option (ℕ × ℕ)),
      unv.length ≤ n → DijInv V E s unv d p →
      DijInv V E s [] (loopN E n unv (d, p)).1 (loopN E n unv (d, p)).2 := by
  intro n
  induction n with
  | zero =>
      intro unv d p hlen inv
      have hnil : unv = [] := List.eq_nil_of_length_eq_zero (Nat.le_zero.mp hlen)
      subst hnil
      simpa [loopN] using inv
  | succ n ih =>
      intro unv d p hlen inv
      cases unv with
      | nil => simpa [loopN] using inv
      | cons u0 rest =>
          have hstep := dijinv_step V E s hE u0 rest d p inv
          have hm : selectMin d (u0 :: rest) ∈ u0 :: rest :=
            selectMin_mem d (u0 :: rest) (List.cons_ne_nil _ _)
          have hlen' :
              ((u0 :: rest).erase (selectMin d (u0 :: rest))).length ≤ n := by
            rw [List.length_erase_of_mem hm]
            simpa using Nat.le_of_succ_le_succ (by simpa using hlen)
          have := ih ((u0 :: rest).erase (selectMin d (u0 :: rest)))
            (relax E (selectMin d (u0 :: rest)) (d, p)).1
            (relax E (selectMin d (u0 :: rest)) (d, p)).2 hlen' hstep
          simpa [loopN] using this

theorem dijkstra_inv (V : List ℕ) (E : List Edge) (s : ℕ)
    (hs : s ∈ V) (hnd : V.Nodup) (hE : ∀ e ∈ E, e.dst ∈ V)
    (d : ℕ → ℕ∞) (p : ℕ → Option (ℕ × ℕ))
    (h : dijkstra V E s = some (d, p)) : DijInv V E s [] d p := by
  rw [dijkstra, if_pos hs] at h
  have hinit : DijInv V E s V
      (fun v => if v = s then (0 : ℕ∞) else ⊤) (fun _ => none) := by
    refine
      { sub := fun x hx => hx
        nd := hnd
        zero := by simp
        front := fun v hv hv' => absurd hv hv'
        outV := ?_
        sound := ?_
        edge := fun e _ heV he' => absurd heV he'
        prevOk := fun v u q h => by simp at h }
    · intro v hv
      have : v ≠ s := fun hvs => hv (hvs ▸ hs)
      simp [this]
    · intro v n hn
      by_cases hv : v = s
      · subst hv
        have h0 : (0 : ℕ∞) = (n : ℕ∞) := by simpa using hn
        have : n = 0 := by exact_mod_cast h0.symm
        subst this
        exact PathLen.refl
      · simp only [if_neg hv] at hn
        exact absurd hn.symm (ENat.coe_ne_top n)
  have := loopN_inv V E s hE V.length V
    (fun v => if v = s then (0 : ℕ∞) else ⊤) (fun _ => none) le_rfl hinit
  have hloop : loop E V
      (fun v => if v = s then (0 : ℕ∞) else ⊤, fun _ => none) = (d, p) :=
    Option.some.inj h
  rw [loop] at hloop
  rw [hloop] at this
  exact this

theorem dijinv_complete (V : List ℕ) (E : List Edge) (s : ℕ)
    (d : ℕ → ℕ∞) (p : ℕ → Option (ℕ × ℕ)) (inv : DijInv V E s [] d p) :
    ∀ (v n : ℕ), PathLen E s v n → d v ≤ (n : ℕ∞) := by
  intro v n h
  induction h with
  | refl =>
      rw [inv.zero]
      exact zero_le _
  | step e hp he hsrc ih =>
      by_cases hsV : e.src ∈ V
      · have hedge := inv.edge e he hsV (List.not_mem_nil _)
        refine le_trans hedge ?_
        rw [hsrc]
        calc d _ + 1 ≤ _ + 1 := add_le_add_right ih 1
          _ = _ := by push_cast; ring
      · have htop := inv.outV e.src hsV
        rw [hsrc] at htop
        rw [htop] at ih
        exact absurd ih (by simp)

/-- C1 (amended): for every topology snapshot and target present among the
vertices (with the snapshot's switch ids distinct and every link destination
a known switch), `dijkstra` succeeds and returns a distance map assigning 0
to the target and, to every vertex `v`, the minimum number of links on a
directed path from the target to `v` (`⊤`, the unreachable sentinel, when no
such path exists); along every predecessor edge of the returned tree the
distance grows by exactly one hop, so distances along tree paths from the
target outward are monotonically non-decreasing.  (The original claim's
stronger conjunct — monotonicity along arbitrary simple paths — is refuted
by `C1_counterexample`.) -/
theorem C1_dijkstra_shortest_paths (V : List ℕ) (E : List Edge) (s : ℕ)
    (hs : s ∈ V) (hnd : V.Nodup) (hE : ∀ e ∈ E, e.dst ∈ V) :
    ∃ d p, dijkstra V E s = some (d, p) ∧
      d s = 0 ∧
      (∀ (v n : ℕ), d v = (n : ℕ∞) →
        PathLen E s v n ∧ ∀ m : ℕ, m < n → ¬ PathLen E s v m) ∧
      (∀ v : ℕ, d v = ⊤ → ∀ n : ℕ, ¬ PathLen E s v n) ∧
      (∀ (v u q : ℕ), p v = some (u, q) → d v = d u + 1) := by
  have hsome : dijkstra V E s =
      some (loop E V (fun v => if v = s then (0 : ℕ∞) else ⊤, fun _ => none)) := by
    rw [dijkstra, if_pos hs]
  set dp := loop E V (fun v => if v = s then (0 : ℕ∞) else ⊤, fun _ => none)
    with hdp
  have hpair : dijkstra V E s = some (dp.1, dp.2) := hsome
  have inv := dijkstra_inv V E s hs hnd hE dp.1 dp.2 hpair
  refine ⟨dp.1, dp.2, hpair, inv.zero, ?_, ?_, ?_⟩
  · intro v n hn
    refine ⟨inv.sound v n hn, ?_⟩
    intro m hm hpm
    have hle := dijinv_complete V E s dp.1 dp.2 inv v m hpm
    rw [hn] at hle
    exact absurd (Nat.cast_le.mp hle) (Nat.not_le.mpr hm)
  · intro v hv n hp
    have hle := dijinv_complete V E s dp.1 dp.2 inv v n hp
    rw [hv] at hle
    exact absurd hle (by simp)
  · intro v u q h
    exact (inv.prevOk v u q h).1

theorem C1_dijkstra_shortest_paths_witness :
    ((0 : ℕ) ∈ [0, 1] ∧ List.Nodup [(0 : ℕ), 1] ∧
      ∀ e ∈ [Edge.mk 0 1 5], e.dst ∈ [0, 1]) ∧
    (∃ d p, dijkstra [0, 1] [Edge.mk 0 1 5] 0 = some (d, p) ∧
      d 0 = 0 ∧
      (∀ (v n : ℕ), d v = (n : ℕ∞) →
        PathLen [Edge.mk 0 1 5] 0 v n ∧
          ∀ m : ℕ, m < n → ¬ PathLen [Edge.mk 0 1 5] 0 v m) ∧
      (∀ v : ℕ, d v = ⊤ → ∀ n : ℕ, ¬ PathLen [Edge.mk 0 1 5] 0 v n) ∧
      (∀ (v u q : ℕ), p v = some (u, q) → d v = d u + 1)) :=
  ⟨⟨by decide, by decide, by decide⟩,
   C1_dijkstra_shortest_paths [0, 1] [Edge.mk 0 1 5] 0
     (by decide) (by decide) (by decide)⟩

/-- C1 counterexample: on the snapshot with distinct switches 0,1,2,3 and
directed links 0→1, 1→2, 2→3, 0→3, the sequence 0,1,2,3 is a simple
directed path from the target 0 (consecutive links present, vertices
distinct), yet the distances returned by `dijkstra` along it are 0,1,2,1 —
the last hop drops from 2 to 1, so the claim's "distances along any simple
path from the target outward are monotonically non-decreasing" is false. -/
theorem C1_counterexample :
    ∃ d p,
      dijkstra [0, 1, 2, 3]
        [Edge.mk 0 1 1, Edge.mk 1 2 1, Edge.mk 2 3 1, Edge.mk 0 3 7] 0 =
        some (d, p) ∧
      List.Nodup [(0 : ℕ), 1, 2, 3] ∧
      Edge.mk 0 1 1 ∈ [Edge.mk 0 1 1, Edge.mk 1 2 1, Edge.mk 2 3 1, Edge.mk 0 3 7] ∧
      Edge.mk 1 2 1 ∈ [Edge.mk 0 1 1, Edge.mk 1 2 1, Edge.mk 2 3 1, Edge.mk 0 3 7] ∧
      Edge.mk 2 3 1 ∈ [Edge.mk 0 1 1, Edge.mk 1 2 1, Edge.mk 2 3 1, Edge.mk 0 3 7] ∧
      d 0 = 0 ∧ d 1 = 1 ∧ d 2 = 2 ∧ d 3 = 1 ∧ ¬ d 2 ≤ d 3 := by
  refine ⟨_, _, rfl, ?_, ?_, ?_, ?_, ?_, ?_, ?_, ?_, ?_⟩ <;> decide

/-! ### Properties of rule compilation and the intent registry -/

theorem ports_foldl_spec (dpid outPort : ℕ) :
    ∀ (ports : List ℕ) (r : Rule),
      ∃ L : List FlowMod,
        (ports.foldl (portStep dpid outPort) r).flow_mods = r.flow_mods ++ L ∧
        (∀ fm ∈ L, fm.dpid = dpid ∧ fm.cmd = Cmd.add ∧ fm.priority = 200 ∧
          fm.actions = [outPort] ∧
          fm.matchFields.dl_dst = r.matchFields.dl_dst ∧
          fm.matchFields.fields = r.matchFields.fields ∧
          ∃ q, fm.matchFields.in_port = some q ∧ q ≠ outPort ∧ q ≠ 65534) ∧
        (ports.foldl (portStep dpid outPort) r).uuid = r.uuid ∧
        (ports.foldl (portStep dpid outPort) r).ttp_dpid = r.ttp_dpid ∧
        (ports.foldl (portStep dpid outPort) r).ttp_port = r.ttp_port ∧
        (ports.foldl (portStep dpid outPort) r).matchFields.dl_dst =
          r.matchFields.dl_dst ∧
        (ports.foldl (portStep dpid outPort) r).matchFields.fields =
          r.matchFields.fields ∧
        (r.matchFields.in_port = none →
          (ports.foldl (portStep dpid outPort) r).matchFields = r.matchFields) := by
  intro ports
  induction ports with
  | nil =>
      intro r
      exact ⟨[], by simp, by simp, rfl, rfl, rfl, rfl, rfl, fun _ => rfl⟩
  | cons ip ports ih =>
      intro r
      by_cases h1 : ip = outPort
      · simpa [List.foldl_cons, portStep, h1] using ih r
      · by_cases h2 : ip = 65534
        · simpa [List.foldl_cons, portStep, h1, h2] using ih r
        · have hstep : portStep dpid outPort r ip =
              { r with
                  matchFields := { r.matchFields with in_port := none },
                  flow_mods := r.flow_mods ++
                    [{ dpid := dpid,
                       matchFields := { r.matchFields with in_port := some ip },
                       cmd := Cmd.add, priority := 200, actions := [outPort] }] } := by
            simp [portStep, h1, h2]
          obtain ⟨L, hmods, hprops, huuid, httpd, httpp, hdl, hfl, hpres⟩ :=
            ih (portStep dpid outPort r ip)
          refine ⟨{ dpid := dpid,
                    matchFields := { r.matchFields with in_port := some ip },
                    cmd := Cmd.add, priority := 200, actions := [outPort] } :: L,
                  ?_, ?_, ?_, ?_, ?_, ?_, ?_, ?_⟩
          · rw [List.foldl_cons, hmods, hstep]
            simp
          · intro fm hfm
            rcases List.mem_cons.mp hfm with rfl | hfm'
            · exact ⟨rfl, rfl, rfl, rfl, rfl, rfl, ip, rfl, h1, h2⟩
            · have := hprops fm hfm'
              rw [hstep] at this
              exact this
          · rw [List.foldl_cons, huuid, hstep]
          · rw [List.foldl_cons, httpd, hstep]
          · rw [List.foldl_cons, httpp, hstep]
          · rw [List.foldl_cons, hdl, hstep]
          · rw [List.foldl_cons, hfl, hstep]
          · intro hnone
            rw [List.foldl_cons, hpres (by rw [hstep]), hstep]
            cases hm : r.matchFields with
            | mk i dl f =>
                rw [hm] at hnone
                simp at hnone
                subst hnone
                rfl

theorem predStep_spec (snap : Snapshot) (target : ℕ)
    (prev : ℕ → Option (ℕ × ℕ)) (r : Rule) (pred : ℕ) :
    ∃ L : List FlowMod,
      (predStep snap target prev r pred).flow_mods = r.flow_mods ++ L ∧
      (∀ fm ∈ L, fm.cmd = Cmd.add ∧ fm.priority = 200 ∧
        fm.matchFields.dl_dst = r.matchFields.dl_dst ∧
        fm.matchFields.fields = r.matchFields.fields ∧
        ∃ op q, fm.actions = [op] ∧ fm.matchFields.in_port = some q ∧
          q ≠ op ∧ q ≠ 65534) ∧
      (predStep snap target prev r pred).uuid = r.uuid ∧
      (predStep snap target prev r pred).ttp_dpid = r.ttp_dpid ∧
      (predStep snap target prev r pred).ttp_port = r.ttp_port ∧
      (predStep snap target prev r pred).matchFields.dl_dst =
        r.matchFields.dl_dst ∧
      (predStep snap target prev r pred).matchFields.fields =
        r.matchFields.fields ∧
      (r.matchFields.in_port = none →
        (predStep snap target prev r pred).matchFields = r.matchFields) := by
  cases hp : prev pred with
  | none =>
      have heq : predStep snap target prev r pred =
          (findSwitch snap target).ports.foldl
            (portStep (findSwitch snap target).dpid r.ttp_port) r := by
        simp [predStep, hp]
      rw [heq]
      obtain ⟨L, hmods, hprops, h3, h4, h5, h6, h7, h8⟩ :=
        ports_foldl_spec (findSwitch snap target).dpid r.ttp_port
          (findSwitch snap target).ports r
      refine ⟨L, hmods, ?_, h3, h4, h5, h6, h7, h8⟩
      intro fm hfm
      obtain ⟨_, hb, hc, hd, he, hf, q, hq1, hq2, hq3⟩ := hprops fm hfm
      exact ⟨hb, hc, he, hf, r.ttp_port, q, hd, hq1, hq2, hq3⟩
  | some uq =>
      have heq : predStep snap target prev r pred =
          (findSwitch snap pred).ports.foldl
            (portStep (findSwitch snap pred).dpid uq.2) r := by
        simp [predStep, hp]
      rw [heq]
      obtain ⟨L, hmods, hprops, h3, h4, h5, h6, h7, h8⟩ :=
        ports_foldl_spec (findSwitch snap pred).dpid uq.2
          (findSwitch snap pred).ports r
      refine ⟨L, hmods, ?_, h3, h4, h5, h6, h7, h8⟩
      intro fm hfm
      obtain ⟨_, hb, hc, hd, he, hf, q, hq1, hq2, hq3⟩ := hprops fm hfm
      exact ⟨hb, hc, he, hf, uq.2, q, hd, hq1, hq2, hq3⟩

theorem preds_foldl_spec (snap : Snapshot) (target : ℕ)
    (prev : ℕ → Option (ℕ × ℕ)) :
    ∀ (sws : List ℕ) (r : Rule),
      ∃ L : List FlowMod,
        (sws.foldl (predStep snap target prev) r).flow_mods =
          r.flow_mods ++ L ∧
        (∀ fm ∈ L, fm.cmd = Cmd.add ∧ fm.priority = 200 ∧
          fm.matchFields.dl_dst = r.matchFields.dl_dst ∧
          fm.matchFields.fields = r.matchFields.fields ∧
          ∃ op q, fm.actions = [op] ∧ fm.matchFields.in_port = some q ∧
            q ≠ op ∧ q ≠ 65534) ∧
        (sws.foldl (predStep snap target prev) r).uuid = r.uuid ∧
        (sws.foldl (predStep snap target prev) r).ttp_dpid = r.ttp_dpid ∧
        (sws.foldl (predStep snap target prev) r).ttp_port = r.ttp_port ∧
        (sws.foldl (predStep snap target prev) r).matchFields.dl_dst =
          r.matchFields.dl_dst ∧
        (sws.foldl (predStep snap target prev) r).matchFields.fields =
          r.matchFields.fields ∧
        (r.matchFields.in_port = none →
          (sws.foldl (predStep snap target prev) r).matchFields =
            r.matchFields) := by
  intro sws
  induction sws with
  | nil =>
      intro r
      exact ⟨[], by simp, by simp, rfl, rfl, rfl, rfl, rfl, fun _ => rfl⟩
  | cons pred sws ih =>
      intro r
      obtain ⟨L0, g0, gprops, g3, g4, g5, g6, g7, g8⟩ :=
        predStep_spec snap target prev r pred
      obtain ⟨L, hmods, hprops, h3, h4, h5, h6, h7, h8⟩ :=
        ih (predStep snap target prev r pred)
      refine ⟨L0 ++ L, ?_, ?_, ?_, ?_, ?_, ?_, ?_, ?_⟩
      · rw [List.foldl_cons, hmods, g0, List.append_assoc]
      · intro fm hfm
        rcases List.mem_append.mp hfm with hfm' | hfm'
        · exact gprops fm hfm'
        · obtain ⟨ha, hb, hc, hd, rest⟩ := hprops fm hfm'
          exact ⟨ha, hb, hc.trans g6, hd.trans g7, rest⟩
      · rw [List.foldl_cons, h3, g3]
      · rw [List.foldl_cons, h4, g4]
      · rw [List.foldl_cons, h5, g5]
      · rw [List.foldl_cons, h6, g6]
      · rw [List.foldl_cons, h7, g7]
      · intro hnone
        rw [List.foldl_cons, h8 (by rw [g8 hnone, hnone]), g8 hnone]

theorem compileRule_ok (snap : Snapshot) (r : Rule)
    (h : r.ttp_dpid ∈ snap.switches.map Switch.dpid) :
    (compileRule snap r).2 = none := by
  rw [compileRule, dijkstra, if_pos h]

theorem compileRule_char (snap : Snapshot) (r : Rule)
    (hok : (compileRule snap r).2 = none) :
    ∃ L : List FlowMod,
      (compileRule snap r).1.flow_mods = r.flow_mods ++ L ∧
      (∀ fm ∈ L, fm.cmd = Cmd.add ∧ fm.priority = 200 ∧
        fm.matchFields.dl_dst = r.matchFields.dl_dst ∧
        fm.matchFields.fields = r.matchFields.fields ∧
        ∃ op q, fm.actions = [op] ∧ fm.matchFields.in_port = some q ∧
          q ≠ op ∧ q ≠ 65534) ∧
      (compileRule snap r).1.uuid = r.uuid ∧
      (compileRule snap r).1.ttp_dpid = r.ttp_dpid ∧
      (compileRule snap r).1.ttp_port = r.ttp_port ∧
      (r.matchFields.in_port = none →
        (compileRule snap r).1.matchFields = r.matchFields) := by
  cases hd : dijkstra (snap.switches.map Switch.dpid) snap.links r.ttp_dpid with
  | none =>
      rw [compileRule] at hok
      rw [hd] at hok
      exact absurd hok (by simp)
  | some dp =>
      have h1 : compileRule snap r =
          (List.foldl (predStep snap r.ttp_dpid dp.2) r
            (snap.switches.map Switch.dpid), none) := by
        simp [compileRule, hd]
      rw [h1]
      obtain ⟨L, hmods, hprops, h3, h4, h5, _, _, h8⟩ :=
        preds_foldl_spec snap r.ttp_dpid dp.2 (snap.switches.map Switch.dpid) r
      exact ⟨L, hmods, hprops, h3, h4, h5, h8⟩

theorem compileRule_invalidTarget (snap : Snapshot) (r : Rule)
    (h : r.ttp_dpid ∉ snap.switches.map Switch.dpid) :
    compileRule snap r = (r, some Err.invalidTarget) := by
  rw [compileRule, dijkstra, if_neg h]

theorem dictLookup_insert_self {κ α : Type} [DecidableEq κ] :
    ∀ (d : List (κ × α)) (k : κ) (v : α),
      dictLookup (dictInsert d k v) k = some v := by
  intro d
  induction d with
  | nil => intro k v; simp [dictInsert, dictLookup]
  | cons kv rest ih =>
      intro k v
      by_cases h : kv.1 = k
      · simp [dictInsert, dictLookup, h]
      · simp only [dictInsert, if_neg h, dictLookup]
        exact ih k v

theorem dictErase_insert {κ α : Type} [DecidableEq κ] :
    ∀ (d : List (κ × α)) (k : κ) (v : α),
      dictErase (dictInsert d k v) k = dictErase d k := by
  intro d
  induction d with
  | nil => intro k v; simp [dictInsert, dictErase]
  | cons kv rest ih =>
      intro k v
      by_cases h : kv.1 = k
      · simp [dictInsert, dictErase, h]
      · simp only [dictInsert, if_neg h, dictErase]
        rw [ih]

theorem dictErase_of_lookup_none {κ α : Type} [DecidableEq κ] :
    ∀ (d : List (κ × α)) (k : κ), dictLookup d k = none → dictErase d k = d := by
  intro d
  induction d with
  | nil => intro k _; rfl
  | cons kv rest ih =>
      intro k hk
      by_cases h : kv.1 = k
      · rw [dictLookup, if_pos h] at hk
        exact absurd hk (by simp)
      · rw [dictLookup, if_neg h] at hk
        rw [dictErase, if_neg h, ih k hk]

/-- C3: when the intent's target switch is absent from the topology
snapshot, `add_rule` propagates the `ValueError` raised by `dijkstra`
(`InvalidTarget`): compilation aborts with the rule object unchanged (no
rule produced), no message is pushed to the switch gateway, and the
registry is left untouched (the intent is not stored) — the whole
controller state is returned exactly as it was. -/
theorem C3_invalid_target_add (snap : Snapshot) (r : Rule) (s : AppState)
    (h : r.ttp_dpid ∉ snap.switches.map Switch.dpid) :
    compileRule snap r = (r, some Err.invalidTarget) ∧
    addRule snap r s = (s, some Err.invalidTarget) := by
  have hc := compileRule_invalidTarget snap r h
  exact ⟨hc, by simp [addRule, hc]⟩

theorem C3_invalid_target_add_witness :
    ((3 : ℕ) ∉ (Snapshot.mk [Switch.mk 1 [1, 2]] []).switches.map Switch.dpid) ∧
    addRule (Snapshot.mk [Switch.mk 1 [1, 2]] [])
        (Rule.mk 4 3 1 (Match.mk none none 0) [])
        (AppState.mk [] [] []) =
      (AppState.mk [] [] [], some Err.invalidTarget) :=
  ⟨by decide,
   (C3_invalid_target_add (Snapshot.mk [Switch.mk 1 [1, 2]] [])
     (Rule.mk 4 3 1 (Match.mk none none 0) [])
     (AppState.mk [] [] []) (by decide)).2⟩

theorem addRule_ok (snap : Snapshot) (r : Rule) (s : AppState) (rc : Rule)
    (h : compileRule snap r = (rc, none)) :
    addRule snap r s =
      ({ s with msgs := s.msgs ++ rc.flow_mods.map Msg.flow,
                rules := dictInsert s.rules rc.uuid rc }, none) := by
  unfold addRule
  rw [h]

theorem removeOne_ok (s : AppState) (u : ℕ) (r : Rule)
    (h : dictLookup s.rules u = some r) :
    removeOne s u =
      ({ s with rules := dictErase s.rules u,
                msgs := s.msgs ++
                  r.flow_mods.map (fun fm => Msg.flow (toDeleteStrict fm)) }, none) := by
  unfold removeOne removeReversePath
  rw [h]

/-- C4: `add_rule` followed by `remove_rule` on the same uuid.  The add
pushes exactly the compiled flow-mods as installs and stores the intent;
the removal then succeeds and pushes, for every installed flow-mod, exactly
one strict-delete carrying that flow-mod's datapath, its exact match, and
the same priority it was installed with (every compiled flow-mod has
priority 200 = `OFP_RULE_PRIORITY`, which the delete path uses), and erases
the registry entry, so the registry and the switch-side state (as observed
through the gateway trace) return to their pre-add contents. -/
theorem C4_add_remove_roundtrip (snap : Snapshot) (r : Rule) (s : AppState)
    (hfresh : r.flow_mods = []) (hok : (compileRule snap r).2 = none) :
    addRule snap r s =
      ({ s with
          msgs := s.msgs ++ (compileRule snap r).1.flow_mods.map Msg.flow,
          rules := dictInsert s.rules r.uuid (compileRule snap r).1 }, none) ∧
    removeRule (some r.uuid) (addRule snap r s).1 =
      ({ rules := dictErase s.rules r.uuid,
         mac_to_port := s.mac_to_port,
         msgs := s.msgs ++ (compileRule snap r).1.flow_mods.map Msg.flow ++
           (compileRule snap r).1.flow_mods.map
             (fun fm => Msg.flow (toDeleteStrict fm)) }, none) ∧
    (∀ fm ∈ (compileRule snap r).1.flow_mods,
      (toDeleteStrict fm).dpid = fm.dpid ∧
      (toDeleteStrict fm).matchFields = fm.matchFields ∧
      (toDeleteStrict fm).priority = fm.priority ∧
      (toDeleteStrict fm).cmd = Cmd.deleteStrict) ∧
    (dictLookup s.rules r.uuid = none → dictErase s.rules r.uuid = s.rules) := by
  obtain ⟨L, hmods, hprops, huuid, _, _, _⟩ := compileRule_char snap r hok
  have hpair : compileRule snap r =
      ((compileRule snap r).1, (compileRule snap r).2) := rfl
  rw [hok] at hpair
  have hadd := addRule_ok snap r s (compileRule snap r).1 hpair
  rw [huuid] at hadd
  refine ⟨hadd, ?_, ?_, fun h => dictErase_of_lookup_none s.rules r.uuid h⟩
  · rw [hadd]
    have hlook : dictLookup
        (dictInsert s.rules r.uuid (compileRule snap r).1) r.uuid =
        some (compileRule snap r).1 :=
      dictLookup_insert_self s.rules r.uuid (compileRule snap r).1
    have hro := removeOne_ok
      { s with
          msgs := s.msgs ++ (compileRule snap r).1.flow_mods.map Msg.flow,
          rules := dictInsert s.rules r.uuid (compileRule snap r).1 }
      r.uuid (compileRule snap r).1 hlook
    have herase : dictErase
        (dictInsert s.rules r.uuid (compileRule snap r).1) r.uuid =
        dictErase s.rules r.uuid :=
      dictErase_insert s.rules r.uuid (compileRule snap r).1
    rw [herase] at hro
    show removeOne _ r.uuid = _
    rw [hro]
  · intro fm hfm
    rw [hmods, hfresh, List.nil_append] at hfm
    obtain ⟨_, hprio, _⟩ := hprops fm hfm
    exact ⟨rfl, rfl, by rw [hprio]; rfl, rfl⟩

theorem C4_add_remove_roundtrip_witness :
    (Rule.mk 9 1 1 (Match.mk none none 4) []).flow_mods = [] ∧
    (compileRule (Snapshot.mk [Switch.mk 1 [1, 2]] [])
        (Rule.mk 9 1 1 (Match.mk none none 4) [])).2 = none ∧
    (addRule (Snapshot.mk [Switch.mk 1 [1, 2]] [])
        (Rule.mk 9 1 1 (Match.mk none none 4) [])
        (AppState.mk [] [] [])).2 = none :=
  ⟨rfl, by decide,
   congrArg Prod.snd
     (C4_add_remove_roundtrip (Snapshot.mk [Switch.mk 1 [1, 2]] [])
       (Rule.mk 9 1 1 (Match.mk none none 4) [])
       (AppState.mk [] [] []) rfl (by decide)).1⟩

/-- C6: for a uuid not present in the registry, `remove_rule(uuid)` raises
`KeyError` (`NotFound`) at the `self.rules[uuid]` lookup, before any delete
is pushed and before the registry is touched, and the remove step of
`update_rule` propagates the same error before the add step runs: in both
cases the returned state is exactly the input state (no registry change, no
switch-gateway instruction). -/
theorem C6_remove_unknown_uuid (snap : Snapshot) (u : ℕ) (r : Rule)
    (s : AppState) (h : dictLookup s.rules u = none) :
    removeRule (some u) s = (s, some Err.notFound) ∧
    updateRule snap u r s = (s, some Err.notFound) := by
  have h1 : removeReversePath s u = (s, some Err.notFound) := by
    unfold removeReversePath
    rw [h]
  have h2 : removeOne s u = (s, some Err.notFound) := by
    unfold removeOne
    rw [h1]
  have h3 : removeRule (some u) s = (s, some Err.notFound) := h2
  refine ⟨h3, ?_⟩
  unfold updateRule
  rw [h3]

theorem C6_remove_unknown_uuid_witness :
    dictLookup (AppState.mk [] [] []).rules 5 = none ∧
    removeRule (some 5) (AppState.mk [] [] []) =
      (AppState.mk [] [] [], some Err.notFound) ∧
    updateRule (Snapshot.mk [] []) 5 (Rule.mk 5 1 1 (Match.mk none none 0) [])
        (AppState.mk [] [] []) =
      (AppState.mk [] [] [], some Err.notFound) := by
  refine ⟨rfl, ?_, ?_⟩
  · exact (C6_remove_unknown_uuid (Snapshot.mk [] []) 5
      (Rule.mk 5 1 1 (Match.mk none none 0) []) (AppState.mk [] [] []) rfl).1
  · exact (C6_remove_unknown_uuid (Snapshot.mk [] []) 5
      (Rule.mk 5 1 1 (Match.mk none none 0) []) (AppState.mk [] [] []) rfl).2

/-- C7: every flow-mod emitted by compilation for a fresh intent carries a
forced ingress port (`in_port` in its match), and that port differs from
the rule's single output-action port and from the reserved port 65534: the
`for in_port in datapath.ports` loop skips exactly the output port and
65534. -/
theorem C7_no_hairpin_rules (snap : Snapshot) (r : Rule)
    (hfresh : r.flow_mods = []) (hok : (compileRule snap r).2 = none) :
    ∀ fm ∈ (compileRule snap r).1.flow_mods,
      ∃ q : ℕ, fm.matchFields.in_port = some q ∧ q ∉ fm.actions ∧ q ≠ 65534 := by
  obtain ⟨L, hmods, hprops, _⟩ := compileRule_char snap r hok
  intro fm hfm
  rw [hmods, hfresh, List.nil_append] at hfm
  obtain ⟨_, _, _, _, op, q, hact, hq, hne, hne'⟩ := hprops fm hfm
  refine ⟨q, hq, ?_, hne'⟩
  rw [hact]
  simp [hne]

theorem C7_no_hairpin_rules_witness :
    (Rule.mk 2 1 1 (Match.mk none none 6) []).flow_mods = [] ∧
    (compileRule (Snapshot.mk [Switch.mk 1 [1, 2, 65534]] [])
        (Rule.mk 2 1 1 (Match.mk none none 6) [])).2 = none ∧
    ∀ fm ∈ (compileRule (Snapshot.mk [Switch.mk 1 [1, 2, 65534]] [])
        (Rule.mk 2 1 1 (Match.mk none none 6) [])).1.flow_mods,
      ∃ q : ℕ, fm.matchFields.in_port = some q ∧ q ∉ fm.actions ∧ q ≠ 65534 :=
  ⟨rfl, by decide,
   C7_no_hairpin_rules (Snapshot.mk [Switch.mk 1 [1, 2, 65534]] [])
     (Rule.mk 2 1 1 (Match.mk none none 6) []) rfl (by decide)⟩

/-- C8 counterexample: compilation is not free of side effects on the
intent: `_compile_rule` appends the compiled flow-mods to the intent's own
`flow_mods` list, so the intent's compiled rule set is modified.  Concrete
run: a one-switch snapshot and a fresh intent whose `flow_mods` list is
empty beforehand and non-empty afterwards. -/
theorem C8_counterexample :
    (compileRule (Snapshot.mk [Switch.mk 1 [1, 2]] [])
        (Rule.mk 3 1 1 (Match.mk none none 8) [])).1.flow_mods ≠
      (Rule.mk 3 1 1 (Match.mk none none 8) []).flow_mods := by decide

/-- C8 (amended): compilation is deterministic in the snapshot and the
intent and mutates nothing except the intent's compiled rule set, to which
it appends the emitted flow-mods: the uuid, target switch, target port are
unchanged, and the match dictionary is restored (when it carried no
pre-existing forced ingress port, the set-then-delete dance on
`match['in_port']` leaves it exactly as it was); on the error path the
intent is returned entirely unchanged. -/
theorem C8_compile_mutates_only_flow_mods (snap : Snapshot) (r : Rule)
    (hin : r.matchFields.in_port = none) :
    (∃ L : List FlowMod,
      (compileRule snap r).1.flow_mods = r.flow_mods ++ L) ∧
    (compileRule snap r).1.uuid = r.uuid ∧
    (compileRule snap r).1.ttp_dpid = r.ttp_dpid ∧
    (compileRule snap r).1.ttp_port = r.ttp_port ∧
    (compileRule snap r).1.matchFields = r.matchFields ∧
    (∀ e : Err, (compileRule snap r).2 = some e → (compileRule snap r).1 = r) := by
  by_cases hmem : r.ttp_dpid ∈ snap.switches.map Switch.dpid
  · have hok := compileRule_ok snap r hmem
    obtain ⟨L, hmods, _, h3, h4, h5, h8⟩ := compileRule_char snap r hok
    exact ⟨⟨L, hmods⟩, h3, h4, h5, h8 hin, fun e he => absurd (hok ▸ he) (by simp)⟩
  · have herr := compileRule_invalidTarget snap r hmem
    rw [herr]
    exact ⟨⟨[], by simp⟩, rfl, rfl, rfl, rfl, fun _ _ => rfl⟩

theorem C8_compile_mutates_only_flow_mods_witness :
    (Rule.mk 3 1 1 (Match.mk none none 8) []).matchFields.in_port = none ∧
    (compileRule (Snapshot.mk [Switch.mk 1 [1, 2]] [])
        (Rule.mk 3 1 1 (Match.mk none none 8) [])).1.matchFields =
      (Rule.mk 3 1 1 (Match.mk none none 8) []).matchFields :=
  ⟨rfl,
   (C8_compile_mutates_only_flow_mods (Snapshot.mk [Switch.mk 1 [1, 2]] [])
     (Rule.mk 3 1 1 (Match.mk none none 8) []) rfl).2.2.2.2.1⟩

/-- C10: storing a second intent under an already-used uuid silently
overwrites the registry entry: `add_rule` compiles and installs the new
intent's rules, replaces the entry in place, and issues no delete for the
old intent's installed rules (every message pushed by the add is an
`OFPFC_ADD` flow-mod), leaving the old rules on the switches but untracked. -/
theorem C10_add_overwrites_silently (snap : Snapshot) (rNew : Rule)
    (s : AppState) (rOld : Rule)
    (_hold : dictLookup s.rules rNew.uuid = some rOld)
    (hfresh : rNew.flow_mods = [])
    (hok : (compileRule snap rNew).2 = none) :
    addRule snap rNew s =
      ({ s with
          msgs := s.msgs ++ (compileRule snap rNew).1.flow_mods.map Msg.flow,
          rules := dictInsert s.rules rNew.uuid (compileRule snap rNew).1 },
        none) ∧
    dictLookup (dictInsert s.rules rNew.uuid (compileRule snap rNew).1)
        rNew.uuid = some (compileRule snap rNew).1 ∧
    (∀ fm ∈ (compileRule snap rNew).1.flow_mods, fm.cmd = Cmd.add) := by
  obtain ⟨L, hmods, hprops, huuid, _⟩ := compileRule_char snap rNew hok
  have hpair : compileRule snap rNew =
      ((compileRule snap rNew).1, (compileRule snap rNew).2) := rfl
  rw [hok] at hpair
  have hadd := addRule_ok snap rNew s (compileRule snap rNew).1 hpair
  rw [huuid] at hadd
  refine ⟨hadd,
    dictLookup_insert_self s.rules rNew.uuid (compileRule snap rNew).1, ?_⟩
  intro fm hfm
  rw [hmods, hfresh, List.nil_append] at hfm
  exact (hprops fm hfm).1

theorem C10_add_overwrites_silently_witness :
    dictLookup (AppState.mk [(9, Rule.mk 9 1 1 (Match.mk none none 0) [])] [] []).rules
        (Rule.mk 9 1 2 (Match.mk none none 4) []).uuid =
      some (Rule.mk 9 1 1 (Match.mk none none 0) []) ∧
    (Rule.mk 9 1 2 (Match.mk none none 4) []).flow_mods = [] ∧
    (compileRule (Snapshot.mk [Switch.mk 1 [1, 2]] [])
        (Rule.mk 9 1 2 (Match.mk none none 4) [])).2 = none ∧
    ∀ fm ∈ (compileRule (Snapshot.mk [Switch.mk 1 [1, 2]] [])
        (Rule.mk 9 1 2 (Match.mk none none 4) [])).1.flow_mods,
      fm.cmd = Cmd.add :=
  ⟨rfl, rfl, by decide,
   (C10_add_overwrites_silently (Snapshot.mk [Switch.mk 1 [1, 2]] [])
     (Rule.mk 9 1 2 (Match.mk none none 4) [])
     (AppState.mk [(9, Rule.mk 9 1 1 (Match.mk none none 0) [])] [] [])
     (Rule.mk 9 1 1 (Match.mk none none 0) []) rfl rfl (by decide)).2.2⟩

/-- C2: evidence that the source does not exclude unreachable switches.  On
the snapshot with switches 1 and 2 and no links, rooted at target 1, switch
2 is unreachable (distance `⊤`) and keeps predecessor `None` — yet
compilation emits two flow-mods instead of the one the target alone
contributes: the `if not preds[pred]` branch treats the unreachable switch
2 exactly like the target, producing a duplicate batch of rules at the
target switch with the target port.  The claim (unreachable switches are
excluded and contribute no rules) matches the specification's stated
intent, which calls this source behaviour a defect; the code contradicts
it. -/
theorem C2_unreachable_not_excluded :
    (dijkstra [1, 2] ([] : List Edge) 1).map (fun dp => (dp.1 2, dp.2 2)) =
      some (⊤, none) ∧
    (compileRule (Snapshot.mk [Switch.mk 1 [1, 2], Switch.mk 2 [1, 2]] [])
        (Rule.mk 7 1 1 (Match.mk none none 5) [])).2 = none ∧
    (compileRule (Snapshot.mk [Switch.mk 1 [1, 2], Switch.mk 2 [1, 2]] [])
        (Rule.mk 7 1 1 (Match.mk none none 5) [])).1.flow_mods.length = 2 ∧
    (∀ fm ∈ (compileRule (Snapshot.mk [Switch.mk 1 [1, 2], Switch.mk 2 [1, 2]] [])
        (Rule.mk 7 1 1 (Match.mk none none 5) [])).1.flow_mods,
      fm.dpid = 1 ∧ fm.actions = [1]) := by
  refine ⟨?_, ?_, ?_, ?_⟩ <;> decide

/-! ### Properties of the learning switch -/

/-- C5 counterexample: learning is not unconditional.  A link-layer
discovery (LLDP) frame is dropped by the early `return` at line 211-213,
before the learning assignment at line 234, so the MAC table entry
`MacTable[1][src] = 3` is never recorded: the handler leaves the state
untouched and the source MAC is absent from the table afterwards. -/
theorem C5_counterexample :
    packetIn (AppState.mk [] [] [])
        (PacketInEv.mk 1 3 OFP_NO_BUFFER [0, 0, 0, 0, 0, 1]
          [0, 0, 0, 0, 0, 2] ETH_TYPE_LLDP) =
      AppState.mk [] [] [] ∧
    dictLookup (packetIn (AppState.mk [] [] [])
        (PacketInEv.mk 1 3 OFP_NO_BUFFER [0, 0, 0, 0, 0, 1]
          [0, 0, 0, 0, 0, 2] ETH_TYPE_LLDP)).mac_to_port 1 = none := by
  refine ⟨?_, ?_⟩ <;> decide

/-- C5 (amended): the learning assignment
`mac_to_port[dpid][src] = in_port` is performed unconditionally for every
frame that survives the three early filters (not link-layer-discovery, not
IPv6, destination MAC not multicast/broadcast), before any forwarding
decision; frames dropped by those filters are not learned — the handler
returns with the whole state, in particular the MAC table, unchanged. -/
theorem C5_learning_after_filters (s : AppState) (ev : PacketInEv) :
    (ev.ethertype ≠ ETH_TYPE_LLDP → ev.ethertype ≠ ETH_TYPE_IPV6 →
      ev.dst.headD 0 % 2 ≠ 1 →
      dictLookup ((dictLookup (packetIn s ev).mac_to_port ev.dpid).getD [])
        ev.src = some ev.in_port) ∧
    ((ev.ethertype = ETH_TYPE_LLDP ∨ ev.ethertype = ETH_TYPE_IPV6 ∨
        ev.dst.headD 0 % 2 = 1) →
      packetIn s ev = s) := by
  constructor
  · intro h1 h2 h3
    simp only [packetIn, if_neg h1, if_neg h2, if_neg h3]
    rw [dictLookup_insert_self]
    simp only [Option.getD_some]
    exact dictLookup_insert_self _ _ _
  · intro h
    rcases h with h | h | h
    · simp [packetIn, h]
    · simp [packetIn, h, ETH_TYPE_LLDP, ETH_TYPE_IPV6]
    · by_cases hL : ev.ethertype = ETH_TYPE_LLDP
      · simp [packetIn, hL]
      · by_cases hI : ev.ethertype = ETH_TYPE_IPV6
        · simp [packetIn, hI, ETH_TYPE_LLDP, ETH_TYPE_IPV6]
        · simp only [packetIn, if_neg hL, if_neg hI, if_pos h]

theorem C5_learning_after_filters_witness :
    dictLookup ((dictLookup (packetIn (AppState.mk [] [] [])
        (PacketInEv.mk 1 3 OFP_NO_BUFFER [0, 0, 0, 0, 0, 1]
          [0, 0, 0, 0, 0, 2] 2048)).mac_to_port 1).getD [])
      [0, 0, 0, 0, 0, 1] = some 3 :=
  (C5_learning_after_filters (AppState.mk [] [] [])
    (PacketInEv.mk 1 3 OFP_NO_BUFFER [0, 0, 0, 0, 0, 1]
      [0, 0, 0, 0, 0, 2] 2048)).1 (by decide) (by decide) (by decide)

/-- C9: a frame with ethertype link-layer-discovery or IPv6, or with a
multicast/broadcast destination MAC (low bit of first octet set), is
dropped by the early returns of the handler before any forwarding decision:
the message trace is unchanged, so in particular no `installRule`
(priority-100 flow-mod) — and no message at all — is submitted. -/
theorem C9_filtered_frames_no_install (s : AppState) (ev : PacketInEv)
    (h : ev.ethertype = ETH_TYPE_LLDP ∨ ev.ethertype = ETH_TYPE_IPV6 ∨
      ev.dst.headD 0 % 2 = 1) :
    (packetIn s ev).msgs = s.msgs := by
  rcases h with h | h | h
  · simp [packetIn, h]
  · simp [packetIn, h, ETH_TYPE_LLDP, ETH_TYPE_IPV6]
  · by_cases hL : ev.ethertype = ETH_TYPE_LLDP
    · simp [packetIn, hL]
    · by_cases hI : ev.ethertype = ETH_TYPE_IPV6
      · simp [packetIn, hI, ETH_TYPE_LLDP, ETH_TYPE_IPV6]
      · simp only [packetIn, if_neg hL, if_neg hI, if_pos h]

theorem C9_filtered_frames_no_install_witness :
    ((PacketInEv.mk 1 3 OFP_NO_BUFFER [0, 0, 0, 0, 0, 1]
        [255, 255, 255, 255, 255, 255] 2048).dst.headD 0 % 2 = 1) ∧
    (packetIn (AppState.mk [] [] [])
        (PacketInEv.mk 1 3 OFP_NO_BUFFER [0, 0, 0, 0, 0, 1]
          [255, 255, 255, 255, 255, 255] 2048)).msgs =
      (AppState.mk [] [] []).msgs :=
  ⟨by decide,
   C9_filtered_frames_no_install (AppState.mk [] [] [])
     (PacketInEv.mk 1 3 OFP_NO_BUFFER [0, 0, 0, 0, 0, 1]
       [255, 255, 255, 255, 255, 255] 2048)
     (Or.inr (Or.inr (by decide)))⟩
